import Mathlib

/-!
# Verification of torchlit's metric-streaming core

A shallow embedding, in Lean 4, of the parts of the `torchlit` repository
that the specification's claims talk about:

* `torchlit/storage/io.py` — the offset-based tail reader `read_metrics_chunk`;
* `torchlit/tracker/tracker.py` — `TrainTracker.step_end` timing (`dt_ms`),
  `TrainTracker._write_event` (the durable append-only log) and
  `TrainTracker._update_meta` (read-merge-write of `meta.json`);
* `torchlit/backend/main.py` — the broker: the per-experiment bounded cache
  (`deque(maxlen=1000)`), the `log_metrics` fan-out pass, the websocket
  rehydration in `websocket_endpoint`, and the idle-shutdown control flow
  (`update_status` / `delayed_shutdown`);
* `torchlit/monitor.py` — `Monitor._flush_queue` / `Monitor._send_data`.

Files are modelled as lists of bytes (`List Nat`), Python ints as `Int`/`Nat`,
JSON parsing of a log line as an abstract parameter `parse : List Nat → Option α`
(standing for `decode ∘ strip ∘ json.loads` plus the `isinstance(obj, dict)`
check: every outcome that does not append a record — blank line, decode noise,
`JSONDecodeError`, non-dict value — is `none`).
-/

set_option autoImplicit false

namespace Torchlit

/-! ## TailReader: `read_metrics_chunk` (`torchlit/storage/io.py`, lines 45-85) -/

/-- The newline byte `b"\n"`. -/
def NL : Nat := 10

/-- Model of `f.readline()` on the remaining bytes of the file: returns the
line read (up to and including the first `NL`, or up to EOF) and the bytes
that follow it. -/
def readline : List Nat → List Nat × List Nat
  | [] => ([], [])
  | b :: bs =>
    if b = NL then ([NL], bs)
    else (b :: (readline bs).1, (readline bs).2)

/-- The `while len(records) < max_records` loop of `read_metrics_chunk`
(io.py lines 62-81), reading from the remaining bytes `rest`, with `pos`
the current value of `f.tell()` and `rem` the number of records that may
still be appended before `len(records)` reaches `max_records`.

Returns the records appended by the loop and the final `f.tell()` (io.py
line 83), i.e. the position after the last consumed line, rewound to the
start of a trailing line that lacks its `\n` terminator (io.py lines 68-70).
-/
def readLoop {α : Type} (parse : List Nat → Option α) (rest : List Nat)
    (pos : Nat) (rem : Nat) : List α × Nat :=
  match rem with
  | 0 => ([], pos)
  | rem' + 1 =>
    if hline : (readline rest).1 = [] then
      -- `if not line: break`  (EOF)
      ([], pos)
    else if ((readline rest).1).getLast? = some NL then
      match parse (readline rest).1 with
      | none =>
        -- blank / malformed / non-dict line: `continue` without appending
        readLoop parse (readline rest).2 (pos + (readline rest).1.length)
          (rem' + 1)
      | some r =>
        -- `records.append(obj)`
        let p := readLoop parse (readline rest).2
          (pos + (readline rest).1.length) rem'
        (r :: p.1, p.2)
    else
      -- `if not line.endswith(b"\n"): f.seek(line_start); break`
      ([], pos)
termination_by rest.length
decreasing_by
  all_goals {
    have key : ∀ bs : List Nat, (readline bs).2.length ≤ bs.length := by
      intro bs
      induction bs with
      | nil => simp [readline]
      | cons b bs ih =>
        by_cases hb : b = NL
        · simp [readline, hb]
        · simp only [readline, if_neg hb]
          exact Nat.le_succ_of_le ih
    cases rest with
    | nil => simp [readline] at hline
    | cons b bs =>
      by_cases hb : b = NL
      · simp [readline, hb]
      · simp only [readline, if_neg hb, List.length_cons]
        exact Nat.lt_succ_of_le (key bs)
  }

/-- Model of `read_metrics_chunk` (io.py lines 45-85).  `file = none` models a run
directory whose `metrics.jsonl` does not exist (io.py lines 51-53); then
`([], 0)` is returned.  Otherwise the offset is clamped to `0` when negative
or beyond the file size (io.py line 59), and the read loop runs from there. -/
def read_metrics_chunk {α : Type} (parse : List Nat → Option α)
    (file : Option (List Nat)) (offset : Int) (max_records : Nat) :
    List α × Nat :=
  match file with
  | none => ([], 0)
  | some content =>
    let file_size := content.length
    let safe_offset : Nat :=
      if offset < 0 ∨ (file_size : Int) < offset then 0 else offset.toNat
    readLoop parse (content.drop safe_offset) safe_offset max_records

/-- The byte content of a file made of the given complete lines: each line
(which must itself contain no `NL`) followed by its `\n` terminator. -/
def joinNL : List (List Nat) → List Nat
  | [] => []
  | l :: ls => l ++ NL :: joinNL ls

/-- A concrete line parser used to instantiate the abstract `parse` in
witnesses: a line consisting of a single ASCII digit byte followed by the
`\n` terminator parses to the digit's value; anything else is rejected. -/
def parseDigitLine (l : List Nat) : Option Nat :=
  match l with
  | [b, t] => if 48 ≤ b ∧ b ≤ 57 ∧ t = NL then some (b - 48) else none
  | _ => none

/-- A concrete serializer matching `parseDigitLine`, used in witnesses:
a digit value becomes its single ASCII byte. -/
def serDigit : Nat → List Nat := fun n => [48 + n]

/-! ## DurableLog: `TrainTracker._write_event` (`tracker.py`, lines 227-245)

`_write_event` appends `json.dumps(obj) + "\n"` to the metrics file
(line 231); the flush/fsync policy (lines 234-245) changes when bytes reach
the disk but never what they are, so the file's content after a sequence of
appends is the concatenation of the serialized lines.  `ser` stands for
`json.dumps` on one record. -/

/-- One `_write_event`: the file grows by the serialized record plus `\n`. -/
def write_event {α : Type} (ser : α → List Nat) (file : List Nat) (e : α) :
    List Nat :=
  file ++ ser e ++ [NL]

/-- The metrics-file content after appending `evs` in order to `file`. -/
def appendEvents {α : Type} (ser : α → List Nat) (file : List Nat)
    (evs : List α) : List Nat :=
  evs.foldl (write_event ser) file

/-! ## Tracker timing: `TrainTracker.step_end` (`tracker.py`, lines 180-201)

`__enter__` sets `_start_ms = _now_ms()` and `_last_step_ms = _start_ms`
(lines 115-116).  Each `step_end` computes
`dt_ms = now - (self._last_step_ms or now)` and then `_last_step_ms = now`
(lines 191-193), and emits a record with `t_ms = now` and `dt_ms = int(dt_ms)`
(lines 195-201).  Only the timing fields are modelled; `epoch`, `split` and
the metric map do not enter the claim. -/

/-- Python's `self._last_step_ms or now`: `now` when `_last_step_ms` is
`None` or the falsy integer `0`, otherwise `_last_step_ms`. -/
def pyOrNow (last_step_ms : Option Nat) (now : Nat) : Nat :=
  match last_step_ms with
  | none => now
  | some m => if m = 0 then now else m

/-- The timing fields of one event record written by `step_end`. -/
structure StepRecord where
  t_ms : Nat
  step : Nat
  dt_ms : Int

/-- The sequence of records produced by successive `step_end` calls, given
the current `_last_step_ms` and the list of `(step, now)` pairs: `now` is the
value `_now_ms()` returns at that call. -/
def stepEndAux (last_step_ms : Option Nat) :
    List (Nat × Nat) → List StepRecord
  | [] => []
  | (st, now) :: rest =>
    { t_ms := now, step := st,
      dt_ms := (now : Int) - (pyOrNow last_step_ms now : Int) }
      :: stepEndAux (some now) rest

/-- The records of one run: the tracker is opened at `start_ms`
(so `_last_step_ms = start_ms`, tracker.py line 116), then `step_end` runs
once per element of `steps`. -/
def trackerEvents (start_ms : Nat) (steps : List (Nat × Nat)) :
    List StepRecord :=
  stepEndAux (some start_ms) steps

/-! ## Meta update: `TrainTracker._update_meta` (`tracker.py`, lines 302-314)

The whole body sits in one `try: ... except Exception: pass`.  The existing
file is read with `json.load`; when that parses to a `dict` it becomes the
base, when it parses to a non-dict the base stays `{}`, and when it raises
(corrupt JSON) the exception reaches the outer handler and the function
returns without writing.  `update_meta` returns `some merged` when the file
is (re)written with `merged`, and `none` when no write happens. -/

/-- What reading the existing `meta.json` yields. -/
inductive MetaContent (V : Type) : Type
  | missing : MetaContent V
  | parseError : MetaContent V
  | parsedNonDict : MetaContent V
  | parsedDict (d : List (String × V)) : MetaContent V

/-- Python's `current.update(updates)` on insertion-ordered dicts: existing
keys keep their position and take the new value, keys new to `current` are
appended in `updates` order. -/
def dictUpdate {V : Type} (d u : List (String × V)) : List (String × V) :=
  d.map (fun p => match u.lookup p.1 with | some v => (p.1, v) | none => p)
    ++ u.filter (fun p => (d.lookup p.1).isNone)

/-- Model of `_update_meta(**updates)` (tracker.py lines 302-314). -/
def update_meta {V : Type} (content : MetaContent V)
    (updates : List (String × V)) : Option (List (String × V)) :=
  match content with
  | .missing => some (dictUpdate [] updates)
  | .parseError => none
  | .parsedNonDict => some (dictUpdate [] updates)
  | .parsedDict d => some (dictUpdate d updates)

/-! ## BufferingAgent: `Monitor._flush_queue` / `_send_data`
(`monitor.py`, lines 357-380)

`log` enqueues `{"step": step, "metrics": metrics}` into a FIFO queue;
`_flush_queue` drains it in order and calls `_send_data` per item, which
builds the POST payload with
`"model_info": self.model_info if step == 1 else {}` (line 374).
`sys_stats` comes from `psutil` (an external telemetry source, out of the
embedding); metrics stay abstract of type `M`, model-info values of type
`V`. -/

/-- The payload `_send_data` posts to `/api/log` (monitor.py lines 369-375),
minus the externally-sourced `sys_stats` field. -/
structure LogPayload (M V : Type) where
  exp_name : String
  step : Nat
  metrics : M
  model_info : List (String × V)

/-- Model of `_send_data(step, metrics)` for a monitor with experiment name `exp` and
model metadata `mi`. -/
def send_data {M V : Type} (exp : String) (mi : List (String × V))
    (step : Nat) (mets : M) : LogPayload M V :=
  { exp_name := exp, step := step, metrics := mets,
    model_info := if step = 1 then mi else [] }

/-- Model of `_flush_queue` over the queued `(step, metrics)` items, FIFO order. -/
def flush_queue {M V : Type} (exp : String) (mi : List (String × V))
    (q : List (Nat × M)) : List (LogPayload M V) :=
  q.map (fun it => send_data exp mi it.1 it.2)

/-! ## Broker: cache, fan-out and rehydration (`backend/main.py`)

One experiment's broker-resident state: `experiment_metrics[exp]`, a
`deque(maxlen=1000)` (main.py line 26), and `active_connections[exp]`, a
list of websockets (line 31).  Connections are identified by numbers;
`failing c = true` models `connection.send_json` raising for `c` during the
current fan-out pass. -/

/-- A websocket connection identifier. -/
abbrev Conn := Nat

/-- The cache capacity: `deque(maxlen=1000)` (main.py line 26). -/
def CACHE_MAXLEN : Nat := 1000

/-- Python's `deque(maxlen=cap).append(e)`: when full, the oldest (leftmost) entry is
evicted.  (For `cap = 0` a real deque stays empty; the model is used only
with `cap ≥ 1`.) -/
def dequeAppend {E : Type} (cap : Nat) (cache : List E) (e : E) : List E :=
  if cache.length < cap then cache ++ [e] else cache.drop 1 ++ [e]

/-- Broker state for one experiment name. -/
structure ExpState (E : Type) where
  cache : List E
  conns : List Conn

/-- The fan-out loop of `log_metrics` (main.py lines 89-94): iterate over the
connection list in order; a successful `send_json` delivers `(c, e)`, a
raising one appends `c` to `dead_connections`.  Returns the delivery list
and the dead list, both in iteration order. -/
def fanoutLoop {E : Type} (failing : Conn → Bool) (e : E) :
    List Conn → List (Conn × E) × List Conn
  | [] => ([], [])
  | c :: cs =>
    if failing c then
      ((fanoutLoop failing e cs).1, c :: (fanoutLoop failing e cs).2)
    else
      ((c, e) :: (fanoutLoop failing e cs).1, (fanoutLoop failing e cs).2)

/-- Model of `log_metrics` (main.py lines 76-100) for one experiment: append to the
bounded cache, fan out to the current connections, then — after the pass —
remove each dead connection with `list.remove` (lines 97-98, first
occurrence).  Returns the new state and the deliveries of this pass. -/
def log_metrics {E : Type} (failing : Conn → Bool) (s : ExpState E) (e : E) :
    ExpState E × List (Conn × E) :=
  let cache2 := dequeAppend CACHE_MAXLEN s.cache e
  let fp := fanoutLoop failing e s.conns
  let conns2 := fp.2.foldl (fun l d => l.erase d) s.conns
  ({ cache := cache2, conns := conns2 }, fp.1)

/-- Model of `websocket_endpoint` accepting connection `c` (main.py lines 103-117):
the connection is appended to the experiment's list, then every cached data
point is sent to it in order (rehydration).  Returns the new state and the
rehydration deliveries. -/
def ws_subscribe {E : Type} (s : ExpState E) (c : Conn) :
    ExpState E × List (Conn × E) :=
  ({ cache := s.cache, conns := s.conns ++ [c] },
    s.cache.map (fun e => (c, e)))

/-- A sequence of `log_metrics` calls; deliveries accumulate in order. -/
def runIngest {E : Type} (failing : Conn → Bool) :
    ExpState E → List E → ExpState E × List (Conn × E)
  | s, [] => (s, [])
  | s, e :: es =>
    ((runIngest failing (log_metrics failing s e).1 es).1,
      (log_metrics failing s e).2
        ++ (runIngest failing (log_metrics failing s e).1 es).2)

/-- The messages a connection `c` received, in order, out of a delivery
trace. -/
def receivedBy {E : Type} (c : Conn) (sends : List (Conn × E)) : List E :=
  sends.filterMap (fun p => if p.1 = c then some p.2 else none)

/-- No `send_json` call raises. -/
def noFail : Conn → Bool := fun _ => false

/-- The late-subscriber scenario: starting from an empty experiment, ingest
`evs₁`, then connection `c` subscribes, then ingest `evs₂`; the result is
everything `c` received, rehydration first, in order. -/
def lateSubscriberTrace {E : Type} (evs₁ : List E) (c : Conn)
    (evs₂ : List E) : List E :=
  receivedBy c
    ((ws_subscribe (runIngest noFail ⟨[], []⟩ evs₁).1 c).2
      ++ (runIngest noFail (ws_subscribe (runIngest noFail ⟨[], []⟩ evs₁).1 c).1
            evs₂).2)

/-! ## Idle shutdown (`backend/main.py`, lines 33-48, 63-73, 124-132)

A discrete-time model of the broker's lifecycle globals and timers.
`update_status` with `"finished"` sets `training_finished` and — only when
the connection total is zero — schedules `delayed_shutdown(delay=10)`
(lines 66-72).  A disconnect that leaves zero connections while finished
schedules `delayed_shutdown(delay=2)` (lines 124-132).  A pending
`delayed_shutdown` task, when its sleep elapses, re-reads the globals and
shuts the process down only if `training_finished` holds and the connection
total is zero at that moment (lines 37-48).  At each instant the due timers
fire before that instant's external actions are applied. -/

/-- External actions on the broker. -/
inductive BAct : Type
  | signalFinished : BAct
  | connect : BAct
  | disconnect : BAct

/-- The broker's lifecycle state: `training_finished`, the connection total,
the absolute fire times of pending `delayed_shutdown` tasks, and whether
`os._exit` ran. -/
structure BrokerCtl where
  finished : Bool
  conns : Nat
  timers : List Nat
  shutdown : Bool

/-- Fresh broker: not finished, no connections, no pending timers. -/
def initCtl : BrokerCtl :=
  { finished := false, conns := 0, timers := [], shutdown := false }

/-- Apply one external action at time `t`. -/
def applyBAct (t : Nat) (s : BrokerCtl) : BAct → BrokerCtl
  | .signalFinished =>
    if s.conns = 0 then
      { s with finished := true, timers := s.timers ++ [t + 10] }
    else
      { s with finished := true }
  | .connect => { s with conns := s.conns + 1 }
  | .disconnect =>
    if s.finished = true ∧ s.conns - 1 = 0 then
      { s with conns := s.conns - 1, timers := s.timers ++ [t + 2] }
    else
      { s with conns := s.conns - 1 }

/-- Run the `delayed_shutdown` tasks due at time `t`: each re-checks
`training_finished` and the connection total now, at fire time. -/
def fireDue (t : Nat) (s : BrokerCtl) : BrokerCtl :=
  if s.timers.contains t ∧ s.finished = true ∧ s.conns = 0 then
    { s with timers := s.timers.filter (fun x => x != t), shutdown := true }
  else
    { s with timers := s.timers.filter (fun x => x != t) }

/-- One instant: due timers fire, then the instant's actions apply. -/
def stepCtl (sched : Nat → List BAct) (t : Nat) (s : BrokerCtl) : BrokerCtl :=
  (sched t).foldl (applyBAct t) (fireDue t s)

/-- The broker state after all instants `0, 1, …, t` of the schedule. -/
def runCtl (sched : Nat → List BAct) : Nat → BrokerCtl
  | 0 => stepCtl sched 0 initCtl
  | t + 1 => stepCtl sched (t + 1) (runCtl sched t)

/-- Schedule: the producer signals `finished` at time 0; nobody ever
connects. -/
def schedSignalOnly : Nat → List BAct :=
  fun t => if t = 0 then [BAct.signalFinished] else []

/-- Schedule: the producer signals `finished` at time 0 and a subscriber
connects at time `k` (after the signal when `k = 0`) and stays. -/
def schedSignalThenConnect (k : Nat) : Nat → List BAct :=
  fun t =>
    (if t = 0 then [BAct.signalFinished] else [])
      ++ (if t = k then [BAct.connect] else [])

/-! ## Theorems: TailReader -/

theorem readline_append_eq (bs : List Nat) :
    (readline bs).1 ++ (readline bs).2 = bs := by
  induction bs with
  | nil => rfl
  | cons b bs ih =>
    by_cases h : b = NL
    · simp [readline, h]
    · simp [readline, h, ih]

theorem readline_complete (l rest : List Nat) (hl : NL ∉ l) :
    readline (l ++ NL :: rest) = (l ++ [NL], rest) := by
  induction l with
  | nil => simp [readline]
  | cons b l ih =>
    have hb : b ≠ NL := fun h => hl (h ▸ List.mem_cons_self b l)
    have hl' : NL ∉ l := fun h => hl (List.mem_cons_of_mem b h)
    simp [readline, hb, ih hl']

theorem readline_no_terminator (l : List Nat) (hl : NL ∉ l) :
    readline l = (l, []) := by
  induction l with
  | nil => rfl
  | cons b l ih =>
    have hb : b ≠ NL := fun h => hl (h ▸ List.mem_cons_self b l)
    have hl' : NL ∉ l := fun h => hl (List.mem_cons_of_mem b h)
    simp [readline, hb, ih hl']

theorem joinNL_append (xs ys : List (List Nat)) :
    joinNL (xs ++ ys) = joinNL xs ++ joinNL ys := by
  induction xs with
  | nil => simp [joinNL]
  | cons x xs ih => simp [joinNL, ih]

theorem getLast?_ne_of_not_mem (l : List Nat) (hl : NL ∉ l) :
    l.getLast? ≠ some NL := by
  cases l with
  | nil => simp
  | cons b l =>
    rw [List.getLast?_eq_getLast (b :: l) (by simp)]
    intro h
    exact hl ((Option.some.injEq _ _ ▸ h) ▸ List.getLast_mem (by simp))

/-- Behaviour of the read loop on a file laid out as complete lines followed
by a terminator-less tail: every complete line is consumed (parsed lines are
appended, others skipped), the trailing partial line is excluded, and the
final position is the start of the partial line. -/
theorem readLoop_spec {α : Type} (parse : List Nat → Option α)
    (ls : List (List Nat)) (pt : List Nat) (pos rem : Nat)
    (hls : ∀ l ∈ ls, NL ∉ l) (hpt : NL ∉ pt)
    (hcount : (ls.filterMap (fun l => parse (l ++ [NL]))).length < rem) :
    readLoop parse (joinNL ls ++ pt) pos rem
      = (ls.filterMap (fun l => parse (l ++ [NL])), pos + (joinNL ls).length) := by
  induction ls generalizing pos rem with
  | nil =>
    have hrem : 0 < rem := by
      have := hcount; simpa using this
    obtain ⟨rem', rfl⟩ : ∃ r, rem = r + 1 := ⟨rem - 1, by omega⟩
    simp only [joinNL, List.nil_append, List.filterMap_nil, List.length_nil,
      Nat.add_zero]
    rw [readLoop]
    by_cases hp : pt = []
    · subst hp; simp [readline]
    · rw [readline_no_terminator pt hpt]
      simp only
      rw [dif_neg hp, if_neg (getLast?_ne_of_not_mem pt hpt)]
  | cons l ls ih =>
    have hlNL : NL ∉ l := hls l (List.mem_cons_self l ls)
    have hls' : ∀ x ∈ ls, NL ∉ x := fun x hx => hls x (List.mem_cons_of_mem l hx)
    have hrem : 0 < rem := by omega
    obtain ⟨rem', rfl⟩ : ∃ r, rem = r + 1 := ⟨rem - 1, by omega⟩
    have hjoin : joinNL (l :: ls) ++ pt = l ++ NL :: (joinNL ls ++ pt) := by
      simp [joinNL]
    rw [hjoin, readLoop, readline_complete l (joinNL ls ++ pt) hlNL]
    simp only
    have hne : l ++ [NL] ≠ [] := by simp
    rw [dif_neg hne, if_pos (by simp)]
    cases hparse : parse (l ++ [NL]) with
    | none =>
      have hcount' : (ls.filterMap (fun l => parse (l ++ [NL]))).length < rem' + 1 := by
        have hlen : ((l :: ls).filterMap (fun l => parse (l ++ [NL]))).length
            = (ls.filterMap (fun l => parse (l ++ [NL]))).length := by
          simp [List.filterMap_cons, hparse]
        omega
      rw [ih (pos + (l ++ [NL]).length) (rem' + 1) hls' hcount']
      simp only [List.filterMap_cons, hparse, joinNL, Prod.mk.injEq,
        List.length_append, List.length_cons, List.length_nil]
      exact ⟨trivial, by omega⟩
    | some r =>
      have hcount' : (ls.filterMap (fun l => parse (l ++ [NL]))).length < rem' := by
        have hlen : ((l :: ls).filterMap (fun l => parse (l ++ [NL]))).length
            = (ls.filterMap (fun l => parse (l ++ [NL]))).length + 1 := by
          simp [List.filterMap_cons, hparse]
        omega
      rw [ih (pos + (l ++ [NL]).length) rem' hls' hcount']
      simp only [List.filterMap_cons, hparse, joinNL, Prod.mk.injEq,
        List.length_append, List.length_cons, List.length_nil]
      exact ⟨trivial, by omega⟩

/-- Calling `read_metrics_chunk` on an existing file of complete lines plus a
trailing terminator-less tail, called at the byte offset of the `k`-th line
boundary: it returns exactly the records parsed from the complete lines from
that boundary on, and the next offset is the start of the partial tail. -/
theorem read_chunk_boundary {α : Type} (parse : List Nat → Option α)
    (ls : List (List Nat)) (pt : List Nat) (k max_records : Nat)
    (hls : ∀ l ∈ ls, NL ∉ l) (hpt : NL ∉ pt)
    (hcount : ((ls.drop k).filterMap (fun l => parse (l ++ [NL]))).length
        < max_records) :
    read_metrics_chunk parse (some (joinNL ls ++ pt))
        ((joinNL (ls.take k)).length : Int) max_records
      = ((ls.drop k).filterMap (fun l => parse (l ++ [NL])),
          (joinNL ls).length) := by
  have hsplit : joinNL ls = joinNL (ls.take k) ++ joinNL (ls.drop k) := by
    rw [← joinNL_append, List.take_append_drop]
  have hofs_le : (joinNL (ls.take k)).length ≤ (joinNL ls ++ pt).length := by
    rw [hsplit]; simp [List.length_append]
  have hcond : ¬(((joinNL (ls.take k)).length : Int) < 0
      ∨ (((joinNL ls ++ pt).length : Nat) : Int)
          < ((joinNL (ls.take k)).length : Int)) := by
    push_neg
    exact ⟨Int.natCast_nonneg _, by exact_mod_cast hofs_le⟩
  have hdrop : (joinNL ls ++ pt).drop (joinNL (ls.take k)).length
      = joinNL (ls.drop k) ++ pt := by
    rw [hsplit, List.append_assoc, List.drop_left]
  have hls' : ∀ l ∈ ls.drop k, NL ∉ l := fun l hl => hls l (List.mem_of_mem_drop hl)
  simp only [read_metrics_chunk, if_neg hcond, Int.toNat_natCast, hdrop]
  rw [readLoop_spec parse (ls.drop k) pt _ _ hls' hpt hcount]
  rw [hsplit]
  simp [List.length_append]

/-- C10: For every run directory whose metrics file does not exist,
`read_metrics_chunk` returns the empty record list and next-offset `0`, for
every offset and every `max_records` value, without raising an error
(io.py lines 51-53). -/
theorem missing_metrics_file_reads_empty {α : Type}
    (parse : List Nat → Option α) (offset : Int) (max_records : Nat) :
    read_metrics_chunk parse none offset max_records = ([], 0) := rfl

/-- C4: For every file and every line-boundary offset, `read_metrics_chunk`
returns only records parsed from complete (newline-terminated) lines at or
after the offset; a trailing line without a terminator is excluded and the
returned next-offset points to the start of that partial line.  (The
spec's concrete scenario — 3 complete lines, 1 unterminated line,
`offset=0`, `max_records=10`, yielding exactly 3 records and a next-offset
at the start of the unterminated line — is the witness below.) -/
theorem read_chunk_complete_lines_only {α : Type} (parse : List Nat → Option α)
    (ls : List (List Nat)) (pt : List Nat) (k max_records : Nat)
    (hls : ∀ l ∈ ls, NL ∉ l) (hpt : NL ∉ pt)
    (hcount : ((ls.drop k).filterMap (fun l => parse (l ++ [NL]))).length
        < max_records) :
    read_metrics_chunk parse (some (joinNL ls ++ pt))
        ((joinNL (ls.take k)).length : Int) max_records
      = ((ls.drop k).filterMap (fun l => parse (l ++ [NL])),
          (joinNL ls).length) :=
  read_chunk_boundary parse ls pt k max_records hls hpt hcount

/-- Witness for C4, the spec's concrete scenario: the file is
`b"1\n2\n3\n45"` (3 complete one-digit lines, then the unterminated `45`);
`read_metrics_chunk` at offset 0 with `max_records = 10` returns exactly the
3 parsed records and next-offset 6, the byte where `45` starts. -/
theorem read_chunk_three_lines_witness :
    read_metrics_chunk parseDigitLine (some [49, 10, 50, 10, 51, 10, 52, 53])
        0 10 = ([1, 2, 3], 6) := by
  have h := read_chunk_complete_lines_only parseDigitLine
    [[49], [50], [51]] [52, 53] 0 10 (by decide) (by decide) (by decide)
  exact h.trans (by decide)

/-! ## Theorems: DurableLog round-trip -/

theorem appendEvents_eq_joinNL {α : Type} (ser : α → List Nat)
    (file : List Nat) (evs : List α) :
    appendEvents ser file evs = file ++ joinNL (evs.map ser) := by
  induction evs generalizing file with
  | nil => simp [appendEvents, joinNL]
  | cons e es ih =>
    simp only [appendEvents, List.foldl_cons, List.map_cons, joinNL] at *
    rw [ih]
    simp [write_event, List.append_assoc]

theorem filterMap_parse_of_roundtrip {α : Type} (ser : α → List Nat)
    (parse : List Nat → Option α) (evs : List α)
    (hrt : ∀ e ∈ evs, parse (ser e ++ [NL]) = some e) :
    (evs.map ser).filterMap (fun l => parse (l ++ [NL])) = evs := by
  induction evs with
  | nil => rfl
  | cons e es ih =>
    have h1 : parse (ser e ++ [NL]) = some e := hrt e (List.mem_cons_self e es)
    have h2 : ∀ x ∈ es, parse (ser x ++ [NL]) = some x :=
      fun x hx => hrt x (List.mem_cons_of_mem e hx)
    simp [List.filterMap_cons, h1, ih h2]

/-- C7: For every sequence of `_write_event` appends within one run, a full
read-back of the metrics file via `read_metrics_chunk` (ignoring any trailing
unflushed partial line `pt`) returns exactly the appended records, in
order.  `ser`/`parse` stand for `json.dumps`/`json.loads`, constrained by
the round-trip law on the appended records and by `json.dumps` emitting no
raw newline. -/
theorem durable_log_roundtrip {α : Type} (ser : α → List Nat)
    (parse : List Nat → Option α) (evs : List α) (pt : List Nat)
    (max_records : Nat)
    (hser : ∀ e ∈ evs, NL ∉ ser e)
    (hrt : ∀ e ∈ evs, parse (ser e ++ [NL]) = some e)
    (hpt : NL ∉ pt)
    (hcount : evs.length < max_records) :
    read_metrics_chunk parse (some (appendEvents ser [] evs ++ pt)) 0
        max_records
      = (evs, (appendEvents ser [] evs).length) := by
  have happ : appendEvents ser [] evs = joinNL (evs.map ser) := by
    simpa using appendEvents_eq_joinNL ser [] evs
  have hls : ∀ l ∈ evs.map ser, NL ∉ l := by
    intro l hl
    obtain ⟨e, he, rfl⟩ := List.mem_map.mp hl
    exact hser e he
  have hfm : (evs.map ser).filterMap (fun l => parse (l ++ [NL])) = evs :=
    filterMap_parse_of_roundtrip ser parse evs hrt
  have hcount' : (((evs.map ser).drop 0).filterMap
      (fun l => parse (l ++ [NL]))).length < max_records := by
    simpa [hfm] using hcount
  have h := read_chunk_boundary parse (evs.map ser) pt 0 max_records hls hpt
    hcount'
  rw [happ]
  simpa [hfm, joinNL] using h

/-- Witness for C7: appending the records `[1, 2, 3]` through the digit
serializer and reading the file back (with an unflushed partial byte `52`
at the end) yields exactly `[1, 2, 3]`. -/
theorem durable_log_roundtrip_witness :
    read_metrics_chunk parseDigitLine
        (some (appendEvents serDigit [] [1, 2, 3] ++ [52])) 0 10
      = ([1, 2, 3], (appendEvents serDigit [] [1, 2, 3]).length) :=
  durable_log_roundtrip serDigit parseDigitLine [1, 2, 3] [52] 10
    (by decide) (by decide) (by decide) (by decide)

/-! ## Theorems: `step_end` timing (`dt_ms`) -/

theorem stepEndAux_timing (items : List (Nat × Nat)) :
    ∀ p : Nat, 0 < p → (∀ q ∈ items, 0 < q.2) →
      (stepEndAux (some p) items).map (fun r => (r.t_ms : Int))
          = items.map (fun q => (q.2 : Int))
      ∧ (stepEndAux (some p) items).map (fun r => r.dt_ms)
          = List.zipWith (fun cur prev => cur - prev)
              (items.map (fun q => (q.2 : Int)))
              ((p : Int) :: items.map (fun q => (q.2 : Int))) := by
  induction items with
  | nil => intro p _ _; simp [stepEndAux]
  | cons q rest ih =>
    intro p hp hts
    obtain ⟨st, now⟩ := q
    have hnow : 0 < now := hts (st, now) (List.mem_cons_self _ _)
    have hts' : ∀ x ∈ rest, 0 < x.2 :=
      fun x hx => hts x (List.mem_cons_of_mem _ hx)
    have hpy : pyOrNow (some p) now = p := by
      simp [pyOrNow, Nat.pos_iff_ne_zero.mp hp]
    obtain ⟨iht, ihd⟩ := ih now hnow hts'
    refine ⟨?_, ?_⟩
    · simp [stepEndAux, iht]
    · simp [stepEndAux, hpy, ihd, List.zipWith]

/-- C1 (amended): the first event's `dt_ms` is its `t_ms` minus the
tracker's open timestamp `start_ms` (set by `__enter__`), not `0`; every
subsequent event's `dt_ms` is the difference between its `t_ms` and the
previous event's `t_ms` in the same run.  (Timestamps are positive, which
real epoch-milliseconds are; `0` would be falsy under Python's `or`.) -/
theorem step_dt_from_previous_event (start_ms : Nat)
    (steps : List (Nat × Nat)) (hstart : 0 < start_ms)
    (hts : ∀ q ∈ steps, 0 < q.2) :
    (trackerEvents start_ms steps).map (fun r => r.dt_ms)
      = List.zipWith (fun cur prev => cur - prev)
          ((trackerEvents start_ms steps).map (fun r => (r.t_ms : Int)))
          ((start_ms : Int)
            :: (trackerEvents start_ms steps).map (fun r => (r.t_ms : Int))) := by
  obtain ⟨ht, hd⟩ := stepEndAux_timing steps start_ms hstart hts
  unfold trackerEvents
  rw [ht, hd]

/-- Counterexample to C1 as stated: a tracker opened at `start_ms = 100`
whose first `step_end` happens at `t_ms = 150` writes `dt_ms = 50`
(the time since open), not the claimed clamped `0`. -/
theorem first_dt_not_zero_counterexample :
    (trackerEvents 100 [(1, 150)]).map (fun r => r.dt_ms) = [50]
    ∧ ((50 : Int) ≠ 0) := by decide

/-- Witness for the amended C1 at a concrete run: open at 100, steps at
150 and 170 give `dt_ms` values 50 and 20. -/
theorem step_dt_witness :
    (trackerEvents 100 [(1, 150), (2, 170)]).map (fun r => r.dt_ms)
      = List.zipWith (fun cur prev => cur - prev)
          ((trackerEvents 100 [(1, 150), (2, 170)]).map
            (fun r => (r.t_ms : Int)))
          ((100 : Int) :: (trackerEvents 100 [(1, 150), (2, 170)]).map
            (fun r => (r.t_ms : Int))) :=
  step_dt_from_previous_event 100 [(1, 150), (2, 170)] (by decide) (by decide)

/-! ## Theorems: `_update_meta` on corrupt meta files -/

/-- C2 (amended): when the existing `meta.json` parses to a non-dict JSON
value, or the file is missing, the teardown update merges into an empty
base and writes exactly the updates; but when the content fails to parse as
JSON at all, the raised `JSONDecodeError` reaches the outer
`except Exception: pass` and the update is silently skipped — no write
happens. -/
theorem meta_update_merge_behaviour {V : Type} (u : List (String × V)) :
    update_meta MetaContent.parsedNonDict u = some u
    ∧ update_meta MetaContent.missing u = some u
    ∧ update_meta MetaContent.parseError u = none := by
  have h : dictUpdate ([] : List (String × V)) u = u := by
    simp [dictUpdate, List.lookup]
  exact ⟨by simp [update_meta, h], by simp [update_meta, h], rfl⟩

/-- Counterexample to C2 as stated: on a meta file whose content fails to
parse as JSON, `_update_meta` performs no write at all (`none`), rather than
writing the new fields merged into an empty base. -/
theorem meta_parse_error_no_write_counterexample :
    update_meta MetaContent.parseError [("ended_ms", (1 : Nat))] = none
    ∧ update_meta MetaContent.parseError [("ended_ms", (1 : Nat))]
        ≠ some (dictUpdate [] [("ended_ms", (1 : Nat))]) := by
  constructor
  · rfl
  · simp [update_meta]

/-! ## Theorems: model metadata on the first step -/

/-- C3 (amended): `_send_data` attaches the model metadata to exactly the
payloads whose step number equals 1 (monitor.py line 374); hence, when the
first emitted step is numbered 1 and no later queued step is, the model
metadata rides on the first emitted payload only and every other payload
carries the empty dict. -/
theorem model_info_on_step_one_only {M V : Type} (exp : String)
    (mi : List (String × V)) (s : Nat) (m : M) (q : List (Nat × M))
    (hs : s = 1) (hq : ∀ it ∈ q, it.1 ≠ 1) :
    (flush_queue exp mi ((s, m) :: q)).map (fun p => p.model_info)
      = mi :: q.map (fun _ => []) := by
  subst hs
  simp only [flush_queue, List.map_cons, List.map_map, List.cons.injEq]
  refine ⟨by simp [send_data], ?_⟩
  apply List.map_congr_left
  intro it hit
  simp [Function.comp, send_data, hq it hit]

/-- Counterexample to C3 as stated: a run whose queued steps are numbered
`[0, 1]` sends its first payload with empty model metadata and its second
payload carrying it — metadata follows the literal step number 1, not the
first emitted step. -/
theorem model_info_not_first_emitted_counterexample :
    (flush_queue "exp" [("name", (1 : Nat))] [(0, (7 : Nat)), (1, 7)]).map
        (fun p => p.model_info)
      = [[], [("name", 1)]]
    ∧ ([([] : List (String × Nat)), [("name", (1 : Nat))]]
        ≠ [[("name", (1 : Nat))], ([] : List (String × Nat))]) := by decide

/-- Witness for the amended C3: steps `[1, 2, 3]` — the first payload
carries the metadata, the rest carry the empty dict. -/
theorem model_info_step_one_witness :
    (flush_queue "e" [("name", (1 : Nat))]
        ((1, (5 : Nat)) :: [(2, 6), (3, 7)])).map (fun p => p.model_info)
      = [("name", (1 : Nat))] :: [((2 : Nat), (6 : Nat)), (3, 7)].map (fun _ => []) :=
  model_info_on_step_one_only "e" [("name", 1)] 1 5 [(2, 6), (3, 7)] rfl
    (by decide)

/-! ## Theorems: broker cache, fan-out and rehydration -/

theorem fanoutLoop_characterization {E : Type} (failing : Conn → Bool)
    (e : E) (conns : List Conn) :
    fanoutLoop failing e conns
      = ((conns.filter (fun c => !failing c)).map (fun c => (c, e)),
          conns.filter failing) := by
  induction conns with
  | nil => rfl
  | cons c cs ih =>
    by_cases hc : failing c
    · simp [fanoutLoop, List.filter_cons, hc, ih]
    · simp [fanoutLoop, List.filter_cons, hc, ih]

theorem foldl_erase_cons_of_ne (ds : List Conn) (c : Conn) (l : List Conn)
    (h : ∀ d ∈ ds, d ≠ c) :
    ds.foldl (fun acc d => acc.erase d) (c :: l)
      = c :: ds.foldl (fun acc d => acc.erase d) l := by
  induction ds generalizing l with
  | nil => rfl
  | cons d ds ih =>
    have hd : d ≠ c := h d (List.mem_cons_self _ _)
    have h' : ∀ x ∈ ds, x ≠ c := fun x hx => h x (List.mem_cons_of_mem _ hx)
    simp only [List.foldl_cons]
    rw [List.erase_cons_tail (by simpa using fun hcd => hd hcd.symm)]
    exact ih (l.erase d) h'

theorem foldl_erase_dead_filter (failing : Conn → Bool) (conns : List Conn) :
    (conns.filter failing).foldl (fun acc d => acc.erase d) conns
      = conns.filter (fun c => !failing c) := by
  induction conns with
  | nil => rfl
  | cons c cs ih =>
    by_cases hc : failing c
    · simp only [List.filter_cons, hc, if_pos trivial, List.foldl_cons,
        List.erase_cons_head]
      simpa [List.filter_cons, hc] using ih
    · have hne : ∀ d ∈ cs.filter failing, d ≠ c := by
        intro d hd hdc
        subst hdc
        exact hc (List.of_mem_filter hd)
      have hfc : List.filter failing (c :: cs) = List.filter failing cs := by
        simp [List.filter_cons, hc]
      have hfn : List.filter (fun x => !failing x) (c :: cs)
          = c :: List.filter (fun x => !failing x) cs := by
        simp [List.filter_cons, hc]
      rw [hfc, hfn, foldl_erase_cons_of_ne (cs.filter failing) c cs hne, ih]

/-- C8: in one `log_metrics` fan-out pass, a send failure on one connection
does not prevent delivery to the remaining subscribers: the deliveries of
the pass are exactly `(c, e)` for every non-failing connection `c`, in
list order — regardless of failing connections standing before them — and
the failing connections are removed from the subscriber list only after the
pass, leaving exactly the non-failing ones in order. -/
theorem fanout_isolates_send_failures {E : Type} (failing : Conn → Bool)
    (cache : List E) (conns : List Conn) (e : E) :
    log_metrics failing ⟨cache, conns⟩ e
      = (⟨dequeAppend CACHE_MAXLEN cache e,
            conns.filter (fun c => !failing c)⟩,
          (conns.filter (fun c => !failing c)).map (fun c => (c, e))) := by
  simp only [log_metrics, fanoutLoop_characterization,
    foldl_erase_dead_filter]

theorem dequeAppend_foldl {E : Type} (cap : Nat) (hcap : 1 ≤ cap) :
    ∀ (evs acc : List E), acc.length ≤ cap →
      evs.foldl (dequeAppend cap) acc
        = (acc ++ evs).drop ((acc ++ evs).length - cap) := by
  intro evs
  induction evs with
  | nil =>
    intro acc hacc
    have h0 : acc.length - cap = 0 := by omega
    simp [h0]
  | cons e es ih =>
    intro acc hacc
    rw [List.foldl_cons]
    by_cases hlt : acc.length < cap
    · have hlen : (acc ++ [e]).length ≤ cap := by
        simp [List.length_append]; omega
      have hstep : dequeAppend cap acc e = acc ++ [e] := by
        simp [dequeAppend, hlt]
      rw [hstep, ih (acc ++ [e]) hlen]
      simp [List.append_assoc]
    · have heq : acc.length = cap := by omega
      have hane : 1 ≤ acc.length := by omega
      have hstep : dequeAppend cap acc e = acc.drop 1 ++ [e] := by
        simp [dequeAppend, hlt]
      have hlen : (acc.drop 1 ++ [e]).length ≤ cap := by
        simp [List.length_append, List.length_drop]; omega
      rw [hstep, ih (acc.drop 1 ++ [e]) hlen]
      have hsplit : (acc.drop 1 ++ [e]) ++ es = (acc ++ e :: es).drop 1 := by
        rw [List.drop_append_of_le_length hane]
        simp
      rw [hsplit, List.drop_drop]
      congr 1
      simp only [List.length_drop, List.length_append, List.length_cons]
      omega

theorem runIngest_cache {E : Type} (failing : Conn → Bool) (evs : List E) :
    ∀ s : ExpState E, (runIngest failing s evs).1.cache
      = evs.foldl (dequeAppend CACHE_MAXLEN) s.cache := by
  induction evs with
  | nil => intro s; rfl
  | cons e es ih =>
    intro s
    simp only [runIngest, List.foldl_cons]
    rw [ih]
    rfl

/-- C5: the broker's in-memory cache for an experiment never holds more
than `CACHE_MAXLEN = 1000` events; after ingesting any sequence of events,
exactly the most recent 1000 remain, oldest evicted first and insertion
order preserved among the survivors (`experiment_metrics[exp]` is a
`deque(maxlen=1000)` appended to by `log_metrics`). -/
theorem cache_bounded_most_recent {E : Type} (failing : Conn → Bool)
    (evs : List E) :
    (runIngest failing ⟨[], []⟩ evs).1.cache
        = evs.drop (evs.length - CACHE_MAXLEN)
    ∧ ((runIngest failing ⟨[], []⟩ evs).1.cache).length ≤ CACHE_MAXLEN := by
  have hfold := dequeAppend_foldl CACHE_MAXLEN
    (by norm_num [CACHE_MAXLEN]) evs ([] : List E) (by simp)
  rw [runIngest_cache]
  simp only [List.nil_append] at hfold
  refine ⟨hfold, ?_⟩
  rw [hfold]
  simp only [List.length_drop]
  omega

theorem runIngest_no_subscribers {E : Type} (failing : Conn → Bool)
    (evs : List E) :
    ∀ cache : List E, runIngest failing ⟨cache, []⟩ evs
      = (⟨evs.foldl (dequeAppend CACHE_MAXLEN) cache, []⟩, []) := by
  induction evs with
  | nil => intro cache; rfl
  | cons e es ih =>
    intro cache
    have hstep : log_metrics failing ⟨cache, []⟩ e
        = (⟨dequeAppend CACHE_MAXLEN cache e, []⟩, []) := by
      simp [log_metrics, fanoutLoop]
    simp only [runIngest, hstep, List.foldl_cons]
    rw [ih]
    simp

theorem runIngest_single_subscriber {E : Type} (evs : List E) (c : Conn) :
    ∀ cache : List E, runIngest noFail ⟨cache, [c]⟩ evs
      = (⟨evs.foldl (dequeAppend CACHE_MAXLEN) cache, [c]⟩,
          evs.map (fun e => (c, e))) := by
  induction evs with
  | nil => intro cache; rfl
  | cons e es ih =>
    intro cache
    have hstep : log_metrics noFail ⟨cache, [c]⟩ e
        = (⟨dequeAppend CACHE_MAXLEN cache e, [c]⟩, [(c, e)]) := by
      simp [log_metrics, fanoutLoop, noFail]
    simp only [runIngest, hstep, List.foldl_cons, List.map_cons]
    rw [ih]
    simp

theorem receivedBy_append {E : Type} (c : Conn) (xs ys : List (Conn × E)) :
    receivedBy c (xs ++ ys) = receivedBy c xs ++ receivedBy c ys := by
  simp [receivedBy, List.filterMap_append]

theorem receivedBy_self_map {E : Type} (c : Conn) (l : List E) :
    receivedBy c (l.map (fun e => (c, e))) = l := by
  induction l with
  | nil => rfl
  | cons e es ih => simp [receivedBy] at ih ⊢; simp [ih]

/-- C6: a subscriber that connects after `evs₁` events were ingested
(with `evs₁` longer than the cache capacity) first receives exactly the
last `CACHE_MAXLEN` cached events in their original ingestion order
(rehydration), and then every subsequently ingested event exactly once, in
order, with no duplicates and no gaps. -/
theorem late_subscriber_rehydration {E : Type} (evs₁ evs₂ : List E)
    (c : Conn) (hM : CACHE_MAXLEN < evs₁.length) :
    lateSubscriberTrace evs₁ c evs₂
      = evs₁.drop (evs₁.length - CACHE_MAXLEN) ++ evs₂ := by
  unfold lateSubscriberTrace
  rw [runIngest_no_subscribers]
  simp only [ws_subscribe, List.nil_append]
  rw [runIngest_single_subscriber, receivedBy_append, receivedBy_self_map,
    receivedBy_self_map]
  have hfold := dequeAppend_foldl CACHE_MAXLEN
    (by norm_num [CACHE_MAXLEN]) evs₁ ([] : List E) (by simp)
  simp only [List.nil_append] at hfold
  rw [hfold]

/-- Witness for C6: after ingesting 1001 events, a fresh subscriber sees
exactly the last 1000 on rehydration and then the next live event. -/
theorem late_subscriber_witness :
    lateSubscriberTrace (List.range 1001) 7 [41]
      = (List.range 1001).drop ((List.range 1001).length - CACHE_MAXLEN)
          ++ [41] :=
  late_subscriber_rehydration (List.range 1001) [41] 7
    (by simp [CACHE_MAXLEN])

/-! ## Theorems: idle shutdown -/

/-- C9: after the producer signals `finished` with zero subscribers, the
broker shuts itself down once the 10-unit grace period elapses; but if a
subscriber connects at any time `k < 10` before the grace period elapses
(and stays), the shutdown task scheduled at signal time does not fire at
its deadline, because `delayed_shutdown` re-checks `training_finished` and
the live connection total at fire time rather than at schedule time. -/
theorem idle_shutdown_rechecks_at_fire_time (k : Nat) (hk : k < 10) :
    (runCtl schedSignalOnly 10).shutdown = true
    ∧ (runCtl (schedSignalThenConnect k) 10).shutdown = false := by
  have hA : (runCtl schedSignalOnly 10).shutdown = true := by decide
  have hB : ∀ j, j < 10 →
      (runCtl (schedSignalThenConnect j) 10).shutdown = false := by decide
  exact ⟨hA, hB k hk⟩

/-- Witness for C9 at a concrete connect time `k = 3`. -/
theorem idle_shutdown_witness :
    (runCtl schedSignalOnly 10).shutdown = true
    ∧ (runCtl (schedSignalThenConnect 3) 10).shutdown = false :=
  idle_shutdown_rechecks_at_fire_time 3 (by decide)

end Torchlit
